import Mathlib

/-!
Shallow embedding of the text renderer, input callback and filesystem
helper of the learnopengl-rust 2d-game repository, together with proofs
about them.

Sources embedded:
- src/2d-game/src/text_renderer/utf8.rs  (Character, FTHelper, TextRenderer)
- src/2d-game/src/main.rs                (key_callback)
- src/shared/src/filesystem.rs           (get_path)

Modelling conventions:
- f32 scalars (pen positions, scale, color) are idealised as rationals.
- i32 arithmetic uses Int with an explicit wrap at the one place the
  source subtracts two i32 values; u32 casts take an explicit mod 2^32.
- Rust String values are modelled as lists of characters.
- The FreeType backend (FT_Load_Char) is an oracle parameter
  `Backend : Char → Option Glyph`; a `none` result models a nonzero
  FreeType error return.
- gl::GenTextures is modelled by a fresh-name counter threaded through
  the FTHelper state; each generated texture id is the counter value.
- A Rust panic (HashMap index on a missing key) is modelled by `none` in
  an Option-valued result; the state component still records the
  mutations performed before the panic.
-/

/-- Two-pow-31 as an integer, for the i32 wrap. -/
def i32Half : Int := 2147483648

/-- Two-pow-32 as an integer. -/
def i32Mod : Int := 4294967296

/-- Wrapping interpretation of an integer as an i32 value
(two-complement wrap used by release-mode Rust arithmetic and by
`as i32` casts). -/
def wrap32 (z : Int) : Int := (z + i32Half) % i32Mod - i32Half

/-- Truncating cast of an integer to u32, as performed by `as u32`. -/
def toU32 (z : Int) : Nat := (z % i32Mod).toNat

/-- Output of one FT_Load_Char call: the rasterised glyph slot data read
by FTHelper::load (bitmap width/rows are unsigned, bitmap_left and
bitmap_top are i32 values, advance.x is a signed fixed-point value). -/
structure Glyph where
  width : Nat
  rows : Nat
  bitmap_left : Int
  bitmap_top : Int
  advance_x : Int
deriving DecidableEq

/-- The FreeType rasterisation oracle: for a character, either its glyph
slot data, or `none` when FT_Load_Char reports an error. -/
def Backend : Type := Char → Option Glyph

/-- Character record stored in the atlas (utf8.rs lines 34-40): texture
handle, glyph size, bearing, fixed-point advance. -/
structure Character where
  texture_id : Nat
  size : Int × Int
  bearing : Int × Int
  advance : Nat
deriving DecidableEq

/-- FTHelper state (utf8.rs lines 43-52): the init flag, font size and
the atlas map, modelled as an association list with distinct keys.
`next_texture` instruments gl::GenTextures with a fresh-name counter. -/
structure FTHelper where
  initialized : Bool
  font_size : Nat
  characters : List (Char × Character)
  next_texture : Nat
deriving DecidableEq

/-- FTHelper::default (utf8.rs lines 147-157): not initialised, font
size zero, empty atlas. -/
def FTHelper.default : FTHelper :=
  { initialized := false, font_size := 0, characters := [], next_texture := 1 }

/-- The membership test `self.characters.iter().any(|it| c == *it.0)`
used by load and get_or_load. -/
def containsChar (l : List (Char × Character)) (c : Char) : Bool :=
  l.any (fun it => c == it.1)

/-- FTHelper::init (utf8.rs lines 69-85): (re)creates the FreeType
library and face for the font path, sets the pixel size, records the
font size and marks the helper initialised.  The atlas map is not
touched.  The font path only feeds the external FT_New_Face call. -/
def FTHelper.init (st : FTHelper) (font : List Char) (font_size : Nat) : FTHelper :=
  let _ := font
  { st with font_size := font_size, initialized := true }

/-- FTHelper::load (utf8.rs lines 87-137): if the character is already
in the atlas, return false; otherwise call FT_Load_Char (on error, log
and return false); on success generate a texture, upload the bitmap and
insert the Character record.  The third component counts FT_Load_Char
calls performed. -/
def FTHelper.load (st : FTHelper) (b : Backend) (c : Char) :
    FTHelper × Bool × Nat :=
  if containsChar st.characters c then
    (st, false, 0)
  else
    match b c with
    | none => (st, false, 1)
    | some g =>
      let texture := st.next_texture
      let character : Character :=
        { texture_id := texture
          size := (wrap32 (g.width : Int), wrap32 (g.rows : Int))
          bearing := (g.bitmap_left, g.bitmap_top)
          advance := toU32 g.advance_x }
      ({ st with
          characters := (c, character) :: st.characters
          next_texture := st.next_texture + 1 },
       true, 1)

/-- FTHelper::get_or_load (utf8.rs lines 139-144): load the character if
missing, then index the map.  The Option is `none` exactly when the
final `self.characters[&c]` indexing would panic (key still absent
because the load failed).  The third component counts FT_Load_Char
calls. -/
def FTHelper.get_or_load (st : FTHelper) (b : Backend) (c : Char) :
    FTHelper × Option Character × Nat :=
  if containsChar st.characters c then
    (st, List.lookup c st.characters, 0)
  else
    match st.load b c with
    | (st1, _, n) => (st1, List.lookup c st1.characters, n)

/-- TextRenderer::load (utf8.rs lines 207-209): delegates to
FTHelper::init on the helper state. -/
def TextRenderer.load (st : FTHelper) (font : List Char) (font_size : Nat) :
    FTHelper :=
  st.init font font_size

/-- An rgb color uniform value (idealised f32 components). -/
def Color : Type := ℚ × ℚ × ℚ

instance : DecidableEq Color := by
  unfold Color
  infer_instance

/-- One glyph quad issued by the loop body of render_text_ex: the
character drawn, its atlas record (whose texture_id is the texture bound
for the draw call), and the quad geometry. -/
structure Quad where
  c : Char
  ch : Character
  xpos : ℚ
  ypos : ℚ
  w : ℚ
  h : ℚ
deriving DecidableEq

/-- One iteration of the character loop of render_text_ex (utf8.rs lines
246-274): get_or_load the character, get_or_load the reference glyph
`H` for the baseline, build the quad, advance the pen.  `none` models
the panic inside a failing get_or_load; the state component keeps the
mutations already performed. -/
def renderStep (b : Backend) (st : FTHelper) (x y scale : ℚ) (c : Char) :
    FTHelper × Option (ℚ × Quad) :=
  match st.get_or_load b c with
  | (st1, none, _) => (st1, none)
  | (st1, some ch, _) =>
    match st1.get_or_load b 'H' with
    | (st2, none, _) => (st2, none)
    | (st2, some chH, _) =>
      let xpos := x + (ch.bearing.1 : ℚ) * scale
      let ypos := y + (wrap32 (chH.bearing.2 - ch.bearing.2) : ℚ) * scale
      let w := (ch.size.1 : ℚ) * scale
      let h := (ch.size.2 : ℚ) * scale
      (st2,
       some (x + ((ch.advance >>> 6 : Nat) : ℚ) * scale,
             { c := c, ch := ch, xpos := xpos, ypos := ypos, w := w, h := h }))

/-- The character loop of render_text_ex, over the remaining text.  On
success, yields the final pen x and the quads drawn in order; on a
panic, `none`, with the state reached so far. -/
def renderLoop (b : Backend) (y scale : ℚ) :
    List Char → FTHelper → ℚ → FTHelper × Option (ℚ × List Quad)
  | [], st, x => (st, some (x, []))
  | c :: cs, st, x =>
    match renderStep b st x y scale c with
    | (st1, none) => (st1, none)
    | (st1, some (x1, q)) =>
      match renderLoop b y scale cs st1 x1 with
      | (st2, none) => (st2, none)
      | (st2, some (xf, qs)) => (st2, some (xf, q :: qs))

/-- Observable outcome of a render_text_ex call: final helper state, the
textColor uniform that was set, and (unless a panic aborted the call)
the final pen x together with the issued glyph quads. -/
structure RenderResult where
  st : FTHelper
  textColor : Color
  ok : Option (ℚ × List Quad)
deriving DecidableEq

/-- TextRenderer::render_text_ex (utf8.rs lines 230-278): set the
textColor uniform, then run the character loop from the start pen
position. -/
def render_text_ex (st : FTHelper) (b : Backend) (text : List Char)
    (x y scale : ℚ) (color : Color) : RenderResult :=
  match renderLoop b y scale text st x with
  | (st2, r) => { st := st2, textColor := color, ok := r }

/-- Modelled from the spec: util::glm::scale_vec3 lives in the shared
crate of this repository, whose util module is not under src/; the spec
describes render_text as rendering with the white vector (1,1,1), i.e.
scale_vec3 of a scalar is the vector with all three components equal to
that scalar. -/
def scale_vec3 (v : ℚ) : Color := (v, v, v)

/-- TextRenderer::render_text (utf8.rs lines 214-228): delegates to
render_text_ex with color scale_vec3(1.0). -/
def render_text (st : FTHelper) (b : Backend) (text : List Char)
    (x y scale : ℚ) : RenderResult :=
  render_text_ex st b text x y scale (scale_vec3 1)

/-- The pixel advance recorded in the atlas of a state for a character:
(raw fixed-point advance) shifted right by 6, or 0 when absent. -/
def advPix (st : FTHelper) (c : Char) : Nat :=
  match List.lookup c st.characters with
  | some ch => ch.advance >>> 6
  | none => 0

/-- GLFW key actions as delivered to the key callback. -/
inductive GlfwAction where
  | press
  | release
  | rep
deriving DecidableEq

/-- The GLFW key code of the escape key. -/
def GLFW_KEY_ESCAPE : Int := 256

/-- Modelled from the spec: the Game struct lives in game.rs, which is
not under src/; per the spec it owns the per-frame input arrays keys[]
and keys_processed[] (indices 0 to 1023) together with further game
state (level index, power-ups, paddle, ball, state enum, window
dimensions), collected here in the abstract field `rest`. -/
structure Game (α : Type) where
  keys : List Bool
  keys_processed : List Bool
  rest : α

/-- key_callback (main.rs lines 202-221): escape closes the window; a
key code inside 0..1024 updates keys[] on press, and keys[] plus
keys_processed[] on release.  The Bool argument and first result model
the window's should-close flag. -/
def key_callback {α : Type} (should_close : Bool) (g : Game α)
    (key : Int) (action : GlfwAction) : Bool × Game α :=
  let sc := if key = GLFW_KEY_ESCAPE ∧ action = GlfwAction.press then
      true
    else
      should_close
  if 0 ≤ key ∧ key < 1024 then
    if action = GlfwAction.press then
      (sc, { g with keys := g.keys.set key.toNat true })
    else if action = GlfwAction.release then
      (sc, { g with
              keys := g.keys.set key.toNat false
              keys_processed := g.keys_processed.set key.toNat false })
    else
      (sc, g)
  else
    (sc, g)

/-- Splitting a character list at a separator character, the model of
str::split used by get_path (an empty input yields the single empty
segment, as in Rust). -/
def splitChar (sep : Char) : List Char → List (List Char)
  | [] => [[]]
  | c :: cs =>
    let r := splitChar sep cs
    if c = sep then
      [] :: r
    else
      match r with
      | [] => [[c]]
      | s :: ss => (c :: s) :: ss

/-- PathBuf::push restricted to Unix path strings: an absolute argument
replaces the path, otherwise a separator is inserted when the current
path is nonempty and does not already end in one, and the argument is
appended. -/
def pathPush (p s : List Char) : List Char :=
  if s.head? = some '/' then s
  else if p = [] then s
  else if p.getLast? = some '/' then p ++ s
  else p ++ '/' :: s

/-- get_path (filesystem.rs lines 19-26): split the relative path on
the slash character and push each segment in order onto the current
working directory. -/
def get_path (cwd : List Char) (path : List Char) : List Char :=
  (splitChar '/' path).foldl pathPush cwd

/-- The plain join the spec describes: the working directory with each
segment appended in order, one separator before each segment. -/
def specJoin (cwd : List Char) (segs : List (List Char)) : List Char :=
  segs.foldl (fun a s => a ++ '/' :: s) cwd

/-- Bound on a bearing component: comfortably inside the i32 range, so
that differences of two bounded bearings do not wrap. -/
def BY (z : Int) : Prop := -1073741824 ≤ z ∧ z < 1073741824

instance (z : Int) : Decidable (BY z) := by
  unfold BY
  infer_instance

/-- All bearing-y values stored in the atlas are bounded. -/
def StB (st : FTHelper) : Prop := ∀ p ∈ st.characters, BY p.2.bearing.2

/-- All bearing-y values the backend can produce are bounded (FreeType
delivers genuine i32 bitmap_top values of modest size). -/
def BkB (b : Backend) : Prop := ∀ c g, b c = some g → BY g.bitmap_top

/-- Concrete glyph fixture used by the evaluation witnesses. -/
def g0 : Glyph :=
  { width := 10, rows := 12, bitmap_left := 1, bitmap_top := 9, advance_x := 640 }

/-- A backend that rasterises every character to the fixture glyph. -/
def bk0 : Backend := fun _ => some g0

/-- A backend whose FT_Load_Char fails exactly on the character A. -/
def bkFailA : Backend := fun c => if c = 'A' then none else some g0

/-- White text color. -/
def white : Color := (1, 1, 1)

/-- The Character record produced by loading A first into a fresh
helper with the fixture backend. -/
def chA : Character :=
  { texture_id := 1, size := (10, 12), bearing := (1, 9), advance := 640 }

/-- Helper state holding exactly the character A. -/
def stA1 : FTHelper :=
  { initialized := false, font_size := 0, characters := [('A', chA)], next_texture := 2 }

/-- A concrete font path value. -/
def fnt : List Char := ['f']

/-- The quad drawn for A from a fresh helper with the fixture backend. -/
def qA : Quad := { c := 'A', ch := chA, xpos := 1, ypos := 0, w := 10, h := 12 }

/-- The Character record the reference glyph H receives when a text is
rendered from a fresh helper with the fixture backend (H is loaded
right after the first character, so it gets texture 2). -/
def chH0 : Character :=
  { texture_id := 2, size := (10, 12), bearing := (1, 9), advance := 640 }

/-- The Character record for B when the text AB is rendered from a
fresh helper with the fixture backend (texture 2 went to the reference
glyph H). -/
def chB : Character :=
  { texture_id := 3, size := (10, 12), bearing := (1, 9), advance := 640 }

/-- The quad drawn for B when the text AB is rendered from a fresh
helper with the fixture backend. -/
def qB : Quad := { c := 'B', ch := chB, xpos := 11, ypos := 0, w := 10, h := 12 }

/-- A concrete Game value with 1024-entry key arrays. -/
def gameFix : Game Unit :=
  { keys := List.replicate 1024 false
    keys_processed := List.replicate 1024 false
    rest := () }

/-- A concrete working directory. -/
def cwd0 : List Char := ['/', 'a', 'b']

/-- A concrete relative path with two segments. -/
def p0 : List Char := ['c', 'd', '/', 'e']

/-! Lemmas about the atlas map -/

theorem containsChar_eq (l : List (Char × Character)) (c : Char) :
    containsChar l c = (List.lookup c l).isSome := by
  induction l with
  | nil => rfl
  | cons p t ih =>
    obtain ⟨k, v⟩ := p
    by_cases h : c = k
    · subst h
      simp [containsChar, List.lookup]
    · simp only [containsChar, List.any_cons, List.lookup] at *
      have hb : (c == k) = false := by
        simp [h]
      rw [hb]
      simpa using ih

theorem lookup_mem {l : List (Char × Character)} {c : Char} {ch : Character}
    (h : List.lookup c l = some ch) : (c, ch) ∈ l := by
  induction l with
  | nil => simp [List.lookup] at h
  | cons p t ih =>
    obtain ⟨k, v⟩ := p
    by_cases hck : c = k
    · subst hck
      simp [List.lookup] at h
      subst h
      exact List.mem_cons_self _ _
    · have hb : (c == k) = false := by
        simp [hck]
      simp only [List.lookup, hb] at h
      exact List.mem_cons_of_mem _ (ih h)

theorem load_mono (st : FTHelper) (b : Backend) (c d : Char) (ch : Character)
    (h : List.lookup d st.characters = some ch) :
    List.lookup d (st.load b c).1.characters = some ch := by
  unfold FTHelper.load
  by_cases hc : containsChar st.characters c
  · simp [hc, h]
  · cases hbc : b c with
    | none => simp [hc, hbc, h]
    | some g =>
      have hdc : (d == c) = false := by
        have hne : d ≠ c := by
          intro e
          subst e
          rw [containsChar_eq, h] at hc
          simp at hc
        simp [hne]
      simp [hc, hbc, List.lookup, hdc, h]

theorem gol_lookup_self {st : FTHelper} {b : Backend} {c : Char} {st' : FTHelper}
    {ch : Character} {n : Nat} (h : st.get_or_load b c = (st', some ch, n)) :
    List.lookup c st'.characters = some ch := by
  unfold FTHelper.get_or_load at h
  by_cases hc : containsChar st.characters c
  · rw [if_pos hc] at h
    injection h with h1 h2
    injection h2 with h2a h2b
    rw [← h1]
    exact h2a
  · rw [if_neg hc] at h
    rcases hl : st.load b c with ⟨st1, okb, m⟩
    rw [hl] at h
    injection h with h1 h2
    injection h2 with h2a h2b
    rw [← h1]
    exact h2a

theorem gol_cached (st : FTHelper) (b : Backend) (c : Char) (ch : Character)
    (h : List.lookup c st.characters = some ch) :
    st.get_or_load b c = (st, some ch, 0) := by
  unfold FTHelper.get_or_load
  have hc : containsChar st.characters c = true := by
    rw [containsChar_eq, h]
    rfl
  simp [hc, h]

theorem gol_mono (st : FTHelper) (b : Backend) (c d : Char) (ch : Character)
    (h : List.lookup d st.characters = some ch) :
    List.lookup d (st.get_or_load b c).1.characters = some ch := by
  unfold FTHelper.get_or_load
  by_cases hc : containsChar st.characters c
  · simp [hc, h]
  · rcases hl : st.load b c with ⟨st1, okb, m⟩
    have hm := load_mono st b c d ch h
    rw [hl] at hm
    simp [hc, hl]
    exact hm

theorem step_mono (b : Backend) (st : FTHelper) (x y s : ℚ) (c d : Char)
    (ch : Character) (h : List.lookup d st.characters = some ch) :
    List.lookup d (renderStep b st x y s c).1.characters = some ch := by
  unfold renderStep
  rcases hg : st.get_or_load b c with ⟨st1, och, n1⟩
  have h1 : List.lookup d st1.characters = some ch := by
    have hm := gol_mono st b c d ch h
    rw [hg] at hm
    exact hm
  cases och with
  | none => simpa using h1
  | some chC =>
    rcases hg2 : st1.get_or_load b 'H' with ⟨st2, och2, n2⟩
    have h2 : List.lookup d st2.characters = some ch := by
      have hm := gol_mono st1 b 'H' d ch h1
      rw [hg2] at hm
      exact hm
    cases och2 with
    | none => simpa [hg2] using h2
    | some chH => simpa [hg2] using h2

theorem loop_mono (b : Backend) (y s : ℚ) (text : List Char) :
    ∀ (st : FTHelper) (x : ℚ) (d : Char) (ch : Character),
      List.lookup d st.characters = some ch →
      List.lookup d (renderLoop b y s text st x).1.characters = some ch := by
  induction text with
  | nil =>
    intro st x d ch h
    simpa [renderLoop] using h
  | cons c cs ih =>
    intro st x d ch h
    unfold renderLoop
    rcases hs : renderStep b st x y s c with ⟨st1, r⟩
    have h1 : List.lookup d st1.characters = some ch := by
      have hm := step_mono b st x y s c d ch h
      rw [hs] at hm
      exact hm
    cases r with
    | none => simpa using h1
    | some p =>
      rcases p with ⟨x1, q⟩
      rcases hl : renderLoop b y s cs st1 x1 with ⟨st2, r2⟩
      have h2 : List.lookup d st2.characters = some ch := by
        have hm := ih st1 x1 d ch h1
        rw [hl] at hm
        exact hm
      cases r2 with
      | none => simpa [hl] using h2
      | some p2 =>
        rcases p2 with ⟨xf, qs⟩
        simpa [hl] using h2

theorem renderStep_some {b : Backend} {st : FTHelper} {x y s : ℚ} {c : Char}
    {st1 : FTHelper} {x1 : ℚ} {q : Quad}
    (h : renderStep b st x y s c = (st1, some (x1, q))) :
    q.c = c ∧
    List.lookup c st1.characters = some q.ch ∧
    x1 = x + ((q.ch.advance >>> 6 : Nat) : ℚ) * s ∧
    q.xpos = x + (q.ch.bearing.1 : ℚ) * s ∧
    ∃ chH, List.lookup 'H' st1.characters = some chH ∧
      q.ypos = y + (wrap32 (chH.bearing.2 - q.ch.bearing.2) : ℚ) * s := by
  unfold renderStep at h
  rcases hg : st.get_or_load b c with ⟨stA, och, nA⟩
  rw [hg] at h
  cases och with
  | none => exact absurd h (by simp)
  | some ch =>
    dsimp only at h
    rcases hg2 : stA.get_or_load b 'H' with ⟨stB, och2, nB⟩
    rw [hg2] at h
    cases och2 with
    | none => exact absurd h (by simp)
    | some chH =>
      dsimp only at h
      injection h with h1 h2
      injection h2 with h2p
      injection h2p with h2a h2b
      subst h1
      subst h2a
      subst h2b
      have hcl : List.lookup c stA.characters = some ch := gol_lookup_self hg
      have hcl1 : List.lookup c stB.characters = some ch := by
        have hm := gol_mono stA b 'H' c ch hcl
        rw [hg2] at hm
        exact hm
      have hHl : List.lookup 'H' stB.characters = some chH := gol_lookup_self hg2
      exact ⟨rfl, hcl1, rfl, rfl, chH, hHl, rfl⟩

theorem renderLoop_finalX (b : Backend) (y s : ℚ) (text : List Char) :
    ∀ (st : FTHelper) (x : ℚ) (stf : FTHelper) (xf : ℚ) (qs : List Quad),
      renderLoop b y s text st x = (stf, some (xf, qs)) →
      xf - x = (text.map (fun c => ((advPix stf c : ℚ)) * s)).sum := by
  induction text with
  | nil =>
    intro st x stf xf qs h
    unfold renderLoop at h
    injection h with h1 h2
    injection h2 with h2p
    injection h2p with h2a h2b
    subst h2a
    simp
  | cons c cs ih =>
    intro st x stf xf qs h
    unfold renderLoop at h
    rcases hs : renderStep b st x y s c with ⟨st1, r⟩
    rw [hs] at h
    cases r with
    | none => exact absurd h (by simp)
    | some p =>
      rcases p with ⟨x1, q⟩
      dsimp only at h
      rcases hl : renderLoop b y s cs st1 x1 with ⟨st2, r2⟩
      rw [hl] at h
      cases r2 with
      | none => exact absurd h (by simp)
      | some p2 =>
        rcases p2 with ⟨xf2, qs2⟩
        dsimp only at h
        injection h with h1 h2
        injection h2 with h2p
        injection h2p with h2a h2b
        subst h1
        subst h2a
        subst h2b
        obtain ⟨hqc, hlk, hx1, -, -⟩ := renderStep_some hs
        have hIH := ih st1 x1 st2 xf2 qs2 hl
        have hlk2 : List.lookup c st2.characters = some q.ch := by
          have hm := loop_mono b y s cs st1 x1 c q.ch hlk
          rw [hl] at hm
          exact hm
        have hadv : advPix st2 c = q.ch.advance >>> 6 := by
          unfold advPix
          rw [hlk2]
        rw [List.map_cons, List.sum_cons, hadv, ← hIH, hx1]
        ring

theorem renderLoop_quads (b : Backend) (y s : ℚ) (text : List Char) :
    ∀ (st : FTHelper) (x : ℚ) (stf : FTHelper) (xf : ℚ) (qs : List Quad),
      renderLoop b y s text st x = (stf, some (xf, qs)) →
      ∀ q ∈ qs, ∃ chH,
        List.lookup 'H' stf.characters = some chH ∧
        List.lookup q.c stf.characters = some q.ch ∧
        q.ypos = y + (wrap32 (chH.bearing.2 - q.ch.bearing.2) : ℚ) * s := by
  induction text with
  | nil =>
    intro st x stf xf qs h
    unfold renderLoop at h
    injection h with h1 h2
    injection h2 with h2p
    injection h2p with h2a h2b
    subst h2b
    intro q hq
    exact absurd hq (by simp)
  | cons c cs ih =>
    intro st x stf xf qs h
    unfold renderLoop at h
    rcases hs : renderStep b st x y s c with ⟨st1, r⟩
    rw [hs] at h
    cases r with
    | none => exact absurd h (by simp)
    | some p =>
      rcases p with ⟨x1, q0⟩
      dsimp only at h
      rcases hl : renderLoop b y s cs st1 x1 with ⟨st2, r2⟩
      rw [hl] at h
      cases r2 with
      | none => exact absurd h (by simp)
      | some p2 =>
        rcases p2 with ⟨xf2, qs2⟩
        dsimp only at h
        injection h with h1 h2
        injection h2 with h2p
        injection h2p with h2a h2b
        subst h1
        subst h2a
        subst h2b
        intro q hq
        rcases List.mem_cons.mp hq with hq0 | hqs
        · subst hq0
          obtain ⟨hqc, hlk, -, -, chH, hH, hy⟩ := renderStep_some hs
          refine ⟨chH, ?_, ?_, hy⟩
          · have hm := loop_mono b y s cs st1 x1 'H' chH hH
            rw [hl] at hm
            exact hm
          · rw [hqc]
            have hm := loop_mono b y s cs st1 x1 c q.ch hlk
            rw [hl] at hm
            exact hm
        · exact ih st1 x1 st2 xf2 qs2 hl q hqs

/-! Bounded-bearing invariant, to discharge the i32 wrap -/

theorem wrap32_eq_self (z : Int) (h1 : -i32Half ≤ z) (h2 : z < i32Half) :
    wrap32 z = z := by
  unfold wrap32 i32Half i32Mod at *
  omega

theorem StB_lookup {st : FTHelper} {d : Char} {ch : Character}
    (hst : StB st) (h : List.lookup d st.characters = some ch) :
    BY ch.bearing.2 :=
  hst (d, ch) (lookup_mem h)

theorem StB_load {st : FTHelper} {b : Backend} {c : Char}
    (hb : BkB b) (hst : StB st) : StB (st.load b c).1 := by
  unfold FTHelper.load
  by_cases hc : containsChar st.characters c
  · simpa [hc] using hst
  · cases hbc : b c with
    | none => simpa [hc, hbc] using hst
    | some g =>
      simp only [hc, hbc]
      intro p hp
      rcases List.mem_cons.mp hp with h0 | hmem
      · subst h0
        exact hb c g hbc
      · exact hst p hmem

theorem StB_gol {st : FTHelper} {b : Backend} {c : Char}
    (hb : BkB b) (hst : StB st) : StB (st.get_or_load b c).1 := by
  unfold FTHelper.get_or_load
  by_cases hc : containsChar st.characters c
  · simpa [hc] using hst
  · rcases hl : st.load b c with ⟨st1, okb, m⟩
    have hm := StB_load hb hst (c := c)
    rw [hl] at hm
    simpa [hc, hl] using hm

theorem StB_step {st : FTHelper} {b : Backend} {x y s : ℚ} {c : Char}
    (hb : BkB b) (hst : StB st) : StB (renderStep b st x y s c).1 := by
  unfold renderStep
  rcases hg : st.get_or_load b c with ⟨st1, och, n1⟩
  have h1 : StB st1 := by
    have hm := StB_gol hb hst (c := c)
    rw [hg] at hm
    exact hm
  cases och with
  | none => simpa using h1
  | some chC =>
    rcases hg2 : st1.get_or_load b 'H' with ⟨st2, och2, n2⟩
    have h2 : StB st2 := by
      have hm := StB_gol hb h1 (c := 'H')
      rw [hg2] at hm
      exact hm
    cases och2 with
    | none => simpa [hg2] using h2
    | some chH => simpa [hg2] using h2

theorem StB_loop {b : Backend} {y s : ℚ} (text : List Char) :
    ∀ (st : FTHelper) (x : ℚ), BkB b → StB st →
      StB (renderLoop b y s text st x).1 := by
  induction text with
  | nil =>
    intro st x _ hst
    simpa [renderLoop] using hst
  | cons c cs ih =>
    intro st x hb hst
    unfold renderLoop
    rcases hs : renderStep b st x y s c with ⟨st1, r⟩
    have h1 : StB st1 := by
      have hm := StB_step hb hst (x := x) (y := y) (s := s) (c := c)
      rw [hs] at hm
      exact hm
    cases r with
    | none => simpa using h1
    | some p =>
      rcases p with ⟨x1, q⟩
      rcases hl : renderLoop b y s cs st1 x1 with ⟨st2, r2⟩
      have h2 : StB st2 := by
        have hm := ih st1 x1 hb h1
        rw [hl] at hm
        exact hm
      cases r2 with
      | none => simpa [hl] using h2
      | some p2 =>
        rcases p2 with ⟨xf, qs⟩
        simpa [hl] using h2

/-! Lemmas about path splitting and joining -/

theorem mem_of_getLast?_eq {l : List Char} {x : Char}
    (h : l.getLast? = some x) : x ∈ l := by
  obtain ⟨hne, he⟩ :=
    List.mem_getLast?_eq_getLast (x := x) (l := l) (by simp [h, Option.mem_def])
  subst he
  exact List.getLast_mem hne

theorem splitChar_ne_nil (sep : Char) (p : List Char) : splitChar sep p ≠ [] := by
  induction p with
  | nil => simp [splitChar]
  | cons c cs ih =>
    unfold splitChar
    by_cases hc : c = sep
    · simp [hc]
    · rcases hr : splitChar sep cs with _ | ⟨s, ss⟩
      · simp [hc]
      · simp [hc]

theorem splitChar_sep_not_mem (sep : Char) (p : List Char) :
    ∀ s ∈ splitChar sep p, sep ∉ s := by
  induction p with
  | nil =>
    intro s hs
    simp [splitChar] at hs
    subst hs
    simp
  | cons c cs ih =>
    intro s hs
    unfold splitChar at hs
    by_cases hc : c = sep
    · rw [if_pos hc] at hs
      rcases List.mem_cons.mp hs with h0 | hmem
      · subst h0
        simp
      · exact ih s hmem
    · rw [if_neg hc] at hs
      rcases hr : splitChar sep cs with _ | ⟨s0, ss⟩
      · exact absurd hr (splitChar_ne_nil sep cs)
      · rw [hr] at hs
        dsimp only at hs
        rcases List.mem_cons.mp hs with h0 | hmem
        · subst h0
          intro hmm
          rcases List.mem_cons.mp hmm with h1 | h2
          · exact hc h1.symm
          · exact ih s0 (by rw [hr]; exact List.mem_cons_self _ _) h2
        · exact ih s (by rw [hr]; exact List.mem_cons_of_mem _ hmem)

theorem pathPush_eq {p s : List Char} (hp : p ≠ []) (hpl : p.getLast? ≠ some '/')
    (hs : '/' ∉ s) : pathPush p s = p ++ '/' :: s := by
  unfold pathPush
  have h1 : ¬ s.head? = some '/' := by
    intro h
    exact hs (List.mem_of_mem_head? h)
  rw [if_neg h1, if_neg hp, if_neg hpl]

theorem foldl_pathPush (segs : List (List Char)) :
    ∀ (cwd : List Char), cwd ≠ [] → cwd.getLast? ≠ some '/' →
      (∀ s ∈ segs, s ≠ [] ∧ '/' ∉ s) →
      segs.foldl pathPush cwd = specJoin cwd segs := by
  induction segs with
  | nil =>
    intro cwd _ _ _
    rfl
  | cons s ss ih =>
    intro cwd hc hcl hsegs
    obtain ⟨hs_ne, hs_slash⟩ := hsegs s (List.mem_cons_self _ _)
    have hpush : pathPush cwd s = cwd ++ '/' :: s := pathPush_eq hc hcl hs_slash
    have hne : cwd ++ '/' :: s ≠ [] := by simp
    have hlast : (cwd ++ '/' :: s).getLast? ≠ some '/' := by
      rw [List.getLast?_append_cons]
      intro hsome
      have hmem : '/' ∈ '/' :: s := mem_of_getLast?_eq hsome
      rcases s with _ | ⟨a, t⟩
      · exact hs_ne rfl
      · rw [List.getLast?_cons_cons] at hsome
        exact hs_slash (mem_of_getLast?_eq hsome)
    show (s :: ss).foldl pathPush cwd = specJoin cwd (s :: ss)
    rw [List.foldl_cons, hpush]
    rw [ih (cwd ++ '/' :: s) hne hlast (fun t ht => hsegs t (List.mem_cons_of_mem _ ht))]
    rfl

/-! Projections of render_text_ex -/

theorem render_text_ex_st (st : FTHelper) (b : Backend) (text : List Char)
    (x y s : ℚ) (col : Color) :
    (render_text_ex st b text x y s col).st = (renderLoop b y s text st x).1 := by
  unfold render_text_ex
  rcases renderLoop b y s text st x with ⟨a, r⟩
  rfl

theorem render_text_ex_ok (st : FTHelper) (b : Backend) (text : List Char)
    (x y s : ℚ) (col : Color) :
    (render_text_ex st b text x y s col).ok = (renderLoop b y s text st x).2 := by
  unfold render_text_ex
  rcases renderLoop b y s text st x with ⟨a, r⟩
  rfl

theorem bkB_bk0 : BkB bk0 := by
  intro c g hg
  simp only [bk0] at hg
  injection hg with e
  rw [← e]
  decide

/-! Claim theorems -/

/-- Claim C1 (code bug evidence): with a backend whose FT_Load_Char
fails on the character A (not yet in the atlas), get_or_load performs
the load-char call, which fails without inserting A, and then indexes
the map at the absent key — a panic, modelled by the `none` result.
Consequently render_text_ex on the text AB aborts: its outcome is
`none`, so the remaining character B is not rendered either, contrary
to the claimed graceful skip. -/
theorem c1_failed_glyph_panics :
    FTHelper.default.get_or_load bkFailA 'A' = (FTHelper.default, none, 1) ∧
    (render_text_ex FTHelper.default bkFailA ['A', 'B'] 0 0 1 white).ok = none := by
  constructor
  · decide
  · decide

/-- Claim C2: a successful get_or_load of a character leaves the
character mapped to the returned record, and from any state in which
the character is mapped to that record, get_or_load returns the very
same record with no backend (FT_Load_Char) call and no state change —
for any backend, hence no second rasterize-and-upload ever occurs. -/
theorem c2_cache_hit (st : FTHelper) (b : Backend) (c : Char)
    (st' : FTHelper) (ch : Character) (n : Nat)
    (h : st.get_or_load b c = (st', some ch, n)) :
    List.lookup c st'.characters = some ch ∧
    ∀ (st2 : FTHelper) (b2 : Backend),
      List.lookup c st2.characters = some ch →
      st2.get_or_load b2 c = (st2, some ch, 0) :=
  ⟨gol_lookup_self h, fun st2 b2 h2 => gol_cached st2 b2 c ch h2⟩

/-- Witness for c2_cache_hit at a concrete successful first load. -/
theorem c2_cache_hit_witness :
    List.lookup 'A' stA1.characters = some chA ∧
    ∀ (st2 : FTHelper) (b2 : Backend),
      List.lookup 'A' st2.characters = some chA →
      st2.get_or_load b2 'A' = (st2, some chA, 0) :=
  c2_cache_hit FTHelper.default bk0 'A' stA1 chA 1 (by decide)

/-- Claim C3: when render_text_ex completes without a panic, the final
pen x minus the initial x is the sum, over the characters of the text
in sequence, of the stored fixed-point advance shifted right by 6 and
scaled. -/
theorem c3_advance_sum (st : FTHelper) (b : Backend) (text : List Char)
    (x y s : ℚ) (col : Color) (xf : ℚ) (quads : List Quad)
    (h : (render_text_ex st b text x y s col).ok = some (xf, quads)) :
    xf - x =
      (text.map
        (fun c =>
          ((advPix (render_text_ex st b text x y s col).st c : ℚ)) * s)).sum := by
  have hok : (renderLoop b y s text st x).2 = some (xf, quads) := by
    rw [← render_text_ex_ok st b text x y s col]
    exact h
  have heq : renderLoop b y s text st x =
      ((renderLoop b y s text st x).1, some (xf, quads)) := by
    rw [← hok]
  have hfin :=
    renderLoop_finalX b y s text st x (renderLoop b y s text st x).1 xf quads heq
  rw [render_text_ex_st]
  exact hfin

/-- Witness for c3_advance_sum on the concrete text AB. -/
theorem c3_advance_sum_witness :
    (20 : ℚ) - 0 =
      ((['A', 'B'].map
        (fun c =>
          ((advPix (render_text_ex FTHelper.default bk0 ['A', 'B'] 0 0 1 white).st c
            : ℚ)) * 1)).sum) :=
  c3_advance_sum FTHelper.default bk0 ['A', 'B'] 0 0 1 white 20 [qA, qB]
    (by
      simp [render_text_ex, renderLoop, renderStep, FTHelper.get_or_load, FTHelper.load,
        containsChar, FTHelper.default, bk0, g0, white, wrap32, toU32, i32Half, i32Mod,
        chA, chB, qA, qB, List.lookup]
      norm_num)

/-- Claim C4 counterexample: on a helper state whose atlas already
holds the character A, TextRenderer::load does not reset the atlas to
empty — the entry survives re-initialisation. -/
theorem c4_load_does_not_reset :
    (TextRenderer.load stA1 fnt 48).characters ≠ [] := by
  decide

/-- Claim C4 (amended): TextRenderer::load (re)initialises the backend
state — it marks the helper initialised and records the new font size,
and repeated calls are permitted — but it never clears the glyph
atlas: the character map is exactly what it was before the call. -/
theorem c4_load_reinit (st : FTHelper) (font : List Char) (fs : Nat) :
    (TextRenderer.load st font fs).initialized = true ∧
    (TextRenderer.load st font fs).font_size = fs ∧
    (TextRenderer.load st font fs).characters = st.characters :=
  ⟨rfl, rfl, rfl⟩

/-- Claim C8: when render_text_ex completes, every drawn quad has its
top y-coordinate equal to y plus (bearing-y of the reference glyph H
minus bearing-y of the drawn glyph) times scale, where the reference
record is the atlas entry for H; bearings bounded well inside the i32
range make the i32 subtraction exact. -/
theorem c8_baseline_anchor (st : FTHelper) (b : Backend) (text : List Char)
    (x y s : ℚ) (col : Color) (xf : ℚ) (quads : List Quad)
    (hst : StB st) (hb : BkB b)
    (h : (render_text_ex st b text x y s col).ok = some (xf, quads)) :
    ∀ q ∈ quads, ∃ chH,
      List.lookup 'H' (render_text_ex st b text x y s col).st.characters = some chH ∧
      q.ypos = y + ((chH.bearing.2 - q.ch.bearing.2 : Int) : ℚ) * s := by
  intro q hq
  have hok : (renderLoop b y s text st x).2 = some (xf, quads) := by
    rw [← render_text_ex_ok st b text x y s col]
    exact h
  have heq : renderLoop b y s text st x =
      ((renderLoop b y s text st x).1, some (xf, quads)) := by
    rw [← hok]
  obtain ⟨chH, hH, hlkq, hy⟩ :=
    renderLoop_quads b y s text st x (renderLoop b y s text st x).1 xf quads heq q hq
  have hstf : StB (renderLoop b y s text st x).1 := StB_loop text st x hb hst
  have h1 : BY chH.bearing.2 := StB_lookup hstf hH
  have h2 : BY q.ch.bearing.2 := StB_lookup hstf hlkq
  have hw : wrap32 (chH.bearing.2 - q.ch.bearing.2) =
      chH.bearing.2 - q.ch.bearing.2 := by
    apply wrap32_eq_self
    · unfold BY at h1 h2
      unfold i32Half
      omega
    · unfold BY at h1 h2
      unfold i32Half
      omega
  refine ⟨chH, ?_, ?_⟩
  · rw [render_text_ex_st]
    exact hH
  · rw [hy, hw]

/-- Witness for c8_baseline_anchor on the concrete text A and its
single drawn quad. -/
theorem c8_baseline_anchor_witness :
    List.lookup 'H'
      (render_text_ex FTHelper.default bk0 ['A'] 0 0 1 white).st.characters =
      some chH0 ∧
    qA.ypos = 0 + ((chH0.bearing.2 - qA.ch.bearing.2 : Int) : ℚ) * 1 := by
  obtain ⟨chH, hl, hy⟩ :=
    c8_baseline_anchor FTHelper.default bk0 ['A'] 0 0 1 white 10 [qA]
      (by intro p hp; simp [FTHelper.default] at hp)
      bkB_bk0
      (by
        simp [render_text_ex, renderLoop, renderStep, FTHelper.get_or_load, FTHelper.load,
          containsChar, FTHelper.default, bk0, g0, white, wrap32, toU32, i32Half, i32Mod,
          chA, qA, List.lookup])
      qA (by simp)
  have h2 : List.lookup 'H'
      (render_text_ex FTHelper.default bk0 ['A'] 0 0 1 white).st.characters =
      some chH0 := by decide
  rw [hl] at h2
  have he : chH = chH0 := Option.some.inj h2
  subst he
  exact ⟨hl, hy⟩

/-- Claim C9: render_text is exactly render_text_ex with the white
color vector (1,1,1): same final state, same uniform, same quads and
final pen position, for every input. -/
theorem c9_render_text_white (st : FTHelper) (b : Backend) (text : List Char)
    (x y s : ℚ) :
    render_text st b text x y s = render_text_ex st b text x y s (1, 1, 1) := rfl

/-- Claim C10: no text-renderer operation removes or overwrites an
atlas entry: TextRenderer::load (re-initialisation), FTHelper::init,
FTHelper::load, FTHelper::get_or_load, render_text_ex and render_text
all preserve every existing character-to-record binding exactly. -/
theorem c10_atlas_monotone :
    (∀ (st : FTHelper) (font : List Char) (fs : Nat) (c : Char) (ch : Character),
        List.lookup c st.characters = some ch →
        List.lookup c (TextRenderer.load st font fs).characters = some ch)
    ∧ (∀ (st : FTHelper) (font : List Char) (fs : Nat) (c : Char) (ch : Character),
        List.lookup c st.characters = some ch →
        List.lookup c (st.init font fs).characters = some ch)
    ∧ (∀ (st : FTHelper) (b : Backend) (c' c : Char) (ch : Character),
        List.lookup c st.characters = some ch →
        List.lookup c (st.load b c').1.characters = some ch)
    ∧ (∀ (st : FTHelper) (b : Backend) (c' c : Char) (ch : Character),
        List.lookup c st.characters = some ch →
        List.lookup c (st.get_or_load b c').1.characters = some ch)
    ∧ (∀ (st : FTHelper) (b : Backend) (text : List Char) (x y s : ℚ)
        (col : Color) (c : Char) (ch : Character),
        List.lookup c st.characters = some ch →
        List.lookup c (render_text_ex st b text x y s col).st.characters = some ch)
    ∧ (∀ (st : FTHelper) (b : Backend) (text : List Char) (x y s : ℚ)
        (c : Char) (ch : Character),
        List.lookup c st.characters = some ch →
        List.lookup c (render_text st b text x y s).st.characters = some ch) := by
  refine ⟨fun st font fs c ch h => h, fun st font fs c ch h => h,
    fun st b c' c ch h => load_mono st b c' c ch h,
    fun st b c' c ch h => gol_mono st b c' c ch h,
    ?_, ?_⟩
  · intro st b text x y s col c ch h
    rw [render_text_ex_st]
    exact loop_mono b y s text st x c ch h
  · intro st b text x y s c ch h
    rw [render_text, render_text_ex_st]
    exact loop_mono b y s text st x c ch h

/-- Witness for c10_atlas_monotone: re-initialisation keeps the entry
for A. -/
theorem c10_atlas_monotone_witness :
    List.lookup 'A' (TextRenderer.load stA1 fnt 48).characters = some chA :=
  c10_atlas_monotone.1 stA1 fnt 48 'A' chA (by decide)

/-- Claim C5: the key callback is bounds-guarded: a key code outside
0..=1023 leaves the game state untouched, and a key code inside the
range writes only at that index (which is within the 1024-element
arrays), preserving the array lengths and every other entry. -/
theorem c5_key_bounds {α : Type} (sc : Bool) (g : Game α) (key : Int)
    (action : GlfwAction)
    (hk : g.keys.length = 1024) (hkp : g.keys_processed.length = 1024) :
    (¬ (0 ≤ key ∧ key < 1024) → (key_callback sc g key action).2 = g)
    ∧ ((0 ≤ key ∧ key < 1024) →
        key.toNat < g.keys.length ∧
        key.toNat < g.keys_processed.length ∧
        (key_callback sc g key action).2.keys.length = 1024 ∧
        (key_callback sc g key action).2.keys_processed.length = 1024 ∧
        (∀ i, i ≠ key.toNat →
          (key_callback sc g key action).2.keys[i]? = g.keys[i]? ∧
          (key_callback sc g key action).2.keys_processed[i]? =
            g.keys_processed[i]?)) := by
  refine ⟨fun hout => ?_, fun hin => ?_⟩
  · simp [key_callback, hout]
  · refine ⟨by omega, by omega, ?_, ?_, ?_⟩
    · cases action <;> simp [key_callback, hin, hk]
    · cases action <;> simp [key_callback, hin, hkp]
    · intro i hi
      cases action <;>
        simp [key_callback, hin, List.getElem?_set_ne (Ne.symm hi)]

/-- Witness for c5_key_bounds: the out-of-range key code 2000 is
ignored. -/
theorem c5_key_bounds_witness :
    (key_callback false gameFix 2000 GlfwAction.press).2 = gameFix :=
  (c5_key_bounds false gameFix 2000 GlfwAction.press
    (by rw [gameFix]; exact List.length_replicate 1024 false)
    (by rw [gameFix]; exact List.length_replicate 1024 false)).1 (by decide)

/-- Claim C6: for an in-range key the callback only sets or clears the
two flag arrays: press sets keys at the key index and leaves
keys_processed alone, release clears both at the key index, any other
action changes nothing, every other index is untouched, and the rest
of the game state is never modified. -/
theorem c6_callback_effect {α : Type} (sc : Bool) (g : Game α) (key : Int)
    (action : GlfwAction) (h0 : 0 ≤ key) (h1 : key < 1024) :
    (key_callback sc g key action).2.rest = g.rest
    ∧ (action = GlfwAction.press →
        (key_callback sc g key action).2.keys = g.keys.set key.toNat true
        ∧ (key_callback sc g key action).2.keys_processed = g.keys_processed)
    ∧ (action = GlfwAction.release →
        (key_callback sc g key action).2.keys = g.keys.set key.toNat false
        ∧ (key_callback sc g key action).2.keys_processed =
            g.keys_processed.set key.toNat false)
    ∧ (action = GlfwAction.rep → (key_callback sc g key action).2 = g)
    ∧ (∀ i, i ≠ key.toNat →
        (key_callback sc g key action).2.keys[i]? = g.keys[i]?
        ∧ (key_callback sc g key action).2.keys_processed[i]? =
            g.keys_processed[i]?) := by
  refine ⟨?_, ?_, ?_, ?_, ?_⟩
  · cases action <;> simp [key_callback, h0, h1]
  · intro ha
    subst ha
    simp [key_callback, h0, h1]
  · intro ha
    subst ha
    simp [key_callback, h0, h1]
  · intro ha
    subst ha
    simp [key_callback, h0, h1]
  · intro i hi
    cases action <;>
      simp [key_callback, h0, h1, List.getElem?_set_ne (Ne.symm hi)]

/-- Witness for c6_callback_effect: pressing key 65 does not modify
the rest of the game state. -/
theorem c6_callback_effect_witness :
    (key_callback false gameFix 65 GlfwAction.press).2.rest = gameFix.rest :=
  (c6_callback_effect false gameFix 65 GlfwAction.press (by decide) (by decide)).1

/-- Claim C7: for a working directory that is a nonempty path without a
trailing separator and a relative path whose slash-separated segments
are all nonempty, get_path returns the working directory with each
segment of the path appended in order, one separator before each
segment; the result depends only on the two arguments. -/
theorem c7_get_path_join (cwd p : List Char)
    (h1 : cwd ≠ []) (h2 : cwd.getLast? ≠ some '/')
    (h3 : ∀ s ∈ splitChar '/' p, s ≠ []) :
    get_path cwd p = specJoin cwd (splitChar '/' p) := by
  unfold get_path
  exact foldl_pathPush (splitChar '/' p) cwd h1 h2
    (fun s hs => ⟨h3 s hs, splitChar_sep_not_mem '/' p s hs⟩)

/-- Witness for c7_get_path_join on a concrete directory and two-segment
relative path. -/
theorem c7_get_path_join_witness :
    get_path cwd0 p0 = specJoin cwd0 (splitChar '/' p0) :=
  c7_get_path_join cwd0 p0 (by decide) (by decide) (by decide)
